import Mathlib

/-!
Shallow embedding of `pure_func.py` (adfinis/pure_func) and proofs of the
specification claims.

Modelling conventions:
* Python machine integers are `Int`/`Nat` (`%` on a positive divisor agrees
  with Lean's `Int.emod`/`Nat.mod`).
* The module-level globals `__pure_check` and `__sampling_check` form `GState`.
* A decorated function's per-function mutable record (`FuncState` in the
  source) is `FuncState`; the three-slot history is a `List (Option (α × β))`
  initialised to `[none, none, none]`, exactly as in the source.
* `random.shuffle([0,1,2])` is modelled by a tape of pre-drawn shuffle orders
  threaded through the state (`CheckSt.tape`); an empty tape yields the
  unshuffled `[0,1,2]`.
* Python exceptions become the `Except PyErr` monad, with `try/finally`
  translated by explicit state passing on every exit path.
* A wrapped callable is `PyFun α β`: it receives the call argument (positional
  and keyword arguments collapsed into one value of type `α`) and may read and
  write the threaded state, since in Python the raw function may re-enter its
  own wrapper recursively.
-/

namespace PureFunc

/-- Exceptions that the embedded code can raise. `notPure` models
`NotPureException`, `valueError` models `ValueError`, `assertFail` models a
failing `assert`, and `fuelOut` marks exhaustion of the recursion fuel of the
embedding (it corresponds to nontermination, not to any Python exception). -/
inductive PyErr where
  | notPure (msg : String)
  | valueError (msg : String)
  | assertFail
  | fuelOut
deriving DecidableEq

/-- The module-level globals `__pure_check` and `__sampling_check`. -/
structure GState where
  pure_check : Int
  sampling_check : Int
deriving DecidableEq

/-- Per-function state of a `pure_check`-wrapped function
(`pure_check.FuncState`, lines 153-161 of the source). -/
structure FuncState (α β : Type) where
  call_count : Nat
  history : List (Option (α × β))
  checking : Bool
deriving DecidableEq

/-- Initial `FuncState`: `call_count = 0`, `history = [None, None, None]`,
`checking = False`. -/
def FuncState.init (α β : Type) : FuncState α β := ⟨0, [none, none, none], false⟩

/-- The state threaded through a `pure_check` wrapper call: the function's
`FuncState` plus the tape of upcoming `random.shuffle` results. -/
structure CheckSt (α β : Type) where
  fs : FuncState α β
  tape : List (List Nat)
deriving DecidableEq

/-- A Python callable as seen by the wrapper: it gets the call argument and the
threaded state (it may mutate the state by re-entering the wrapper). -/
abbrev PyFun (α β : Type) := α → CheckSt α β → Except PyErr β × CheckSt α β

/-- A pure deterministic Python function, lifted to `PyFun`. -/
def liftF (f : α → β) : PyFun α β := fun a s => (.ok (f a), s)

/-- Mutation of the `checking` re-entrancy guard
(`func_state.checking = True/False`). -/
def setChecking (s : CheckSt α β) (b : Bool) : CheckSt α β :=
  { s with fs := { s.fs with checking := b } }

/-- Draw the next shuffle order
(`checks = [0, 1, 2]; random.shuffle(checks)`, lines 181-182). -/
def nextShuffle (s : CheckSt α β) : List Nat × CheckSt α β :=
  match s.tape with
  | [] => ([0, 1, 2], s)
  | o :: rest => (o, { s with tape := rest })

/-- The message of the `NotPureException` raised on a mismatch (line 191). -/
def npeMsg (name : String) : String := name ++ "() has side-effects."

/-- The replay loop of `pure_check.decorator.wrapper` (lines 183-194): for each
slot index in the shuffled order, if the slot is non-empty, re-execute the raw
function on the stored arguments under the `checking` guard and raise
`NotPureException` if the stored result differs; the guard is cleared in a
`finally`, i.e. on every exit path. -/
def replayLoop [DecidableEq β] (func : PyFun α β) (name : String) :
    List Nat → CheckSt α β → Except PyErr Unit × CheckSt α β
  | [], s => (.ok (), s)
  | check :: rest, s =>
    match s.fs.history.getD check none with
    | none => replayLoop func name rest s
    | some data =>
      let r0 := func data.1 (setChecking s true)
      match r0.1 with
      | .error e => (.error e, setChecking r0.2 false)
      | .ok fresh =>
        if data.2 ≠ fresh then
          (.error (.notPure (npeMsg name)), setChecking r0.2 false)
        else
          replayLoop func name rest (setChecking r0.2 false)

/-- The history update of `pure_check.decorator.wrapper` (lines 195-200):
slot 2 is refreshed from slot 1 only when `call_count % 13 == 0`, slot 1 gets
slot 0's previous content, slot 0 gets the newest `((args, kwargs), res)`, and
`call_count` advances modulo 13. -/
def historyUpdate (fs : FuncState α β) (a : α) (res : β) : FuncState α β :=
  let cc := fs.call_count
  let h1 := if cc % 13 = 0 then fs.history.set 2 (fs.history.getD 1 none)
            else fs.history
  let h2 := h1.set 1 (h1.getD 0 none)
  let h3 := h2.set 0 (some (a, res))
  { fs with history := h3, call_count := (cc + 1) % 13 }

/-- The wrapper produced by `pure_check()` (lines 174-201): run the raw
function; if both global counters are zero or the `checking` guard is set,
return the result unchecked; otherwise replay the (shuffled) history and, on
success, record the newest call. -/
def pure_check_wrapper [DecidableEq β] (func : PyFun α β) (name : String)
    (g : GState) (a : α) (s : CheckSt α β) : Except PyErr β × CheckSt α β :=
  let r0 := func a s
  match r0.1 with
  | .error e => (.error e, r0.2)
  | .ok res =>
    let s1 := r0.2
    if (g.pure_check = 0 ∧ g.sampling_check = 0) ∨ s1.fs.checking = true then
      (.ok res, s1)
    else
      let ns := nextShuffle s1
      let r1 := replayLoop func name ns.1 ns.2
      match r1.1 with
      | .error e => (.error e, r1.2)
      | .ok _ => (.ok res, { r1.2 with fs := historyUpdate (r1.2).fs a res })

/-- Per-function state of a `pure_sampling`-wrapped function
(`pure_sampling.FuncState`, lines 223-230): `call_count` starts at `-1`,
`check_count` at `0`. -/
structure SampState where
  call_count : Int
  check_count : Nat
deriving DecidableEq

/-- The initial `pure_sampling.FuncState` (lines 228-230). -/
def sampInit : SampState := ⟨-1, 0⟩

/-- One scheduling step of `pure_sampling.decorator.wrapper` (lines 255-258):
`mod = base ** check_count`; `call_count = (call_count + 1) % mod`; the call is
a verification call exactly when `call_count % mod == 0`, in which case
`check_count` is incremented. Returns the trigger decision and the new state. -/
def sampStep (base : Nat) (s : SampState) : Bool × SampState :=
  let md : Int := (base : Int) ^ s.check_count
  let cc : Int := (s.call_count + 1) % md
  if cc % md = 0 then
    (true, { call_count := cc, check_count := s.check_count + 1 })
  else
    (false, { call_count := cc, check_count := s.check_count })

/-- The sampling state after `n` consecutive calls from the initial state. -/
def sampStateAfter (base : Nat) : Nat → SampState
  | 0 => sampInit
  | n + 1 => (sampStep base (sampStateAfter base n)).2

/-- Whether the `(n+1)`-st consecutive call (0-indexed `n`) is a verification
call. -/
def sampTrigger (base : Nat) (n : Nat) : Bool :=
  (sampStep base (sampStateAfter base n)).1

/-- A raw callable that may read the module globals (so that functions invoked
transitively during a sampled call observe the incremented
`__sampling_check`). -/
abbrev PyFunG (α β : Type) := GState → PyFun α β

/-- A pure deterministic function lifted to `PyFunG`. -/
def liftFG (f : α → β) : PyFunG α β := fun _ => liftF f

/-- The wrapper produced by `pure_sampling(base)` for `base > 1`
(lines 251-266): if check mode is on, delegate to the `pure_check`-wrapped
function; otherwise step the backoff scheduler, and on a verification call
increment `__sampling_check`, run the `pure_check`-wrapped function and
decrement `__sampling_check` in a `finally`; on a non-verification call run the
raw function. Returns (result, globals, sampling state, checked-function
state). -/
def pure_sampling_wrapper [DecidableEq β] (base : Nat) (func : PyFunG α β)
    (name : String) (g : GState) (ss : SampState) (s : CheckSt α β) (a : α) :
    Except PyErr β × GState × SampState × CheckSt α β :=
  if 0 < g.pure_check then
    let r := pure_check_wrapper (func g) name g a s
    (r.1, g, ss, r.2)
  else
    let step := sampStep base ss
    if step.1 = true then
      let g1 : GState := { g with sampling_check := g.sampling_check + 1 }
      let r := pure_check_wrapper (func g1) name g1 a s
      (r.1, { g1 with sampling_check := g1.sampling_check - 1 }, step.2, r.2)
    else
      let r := func g a s
      (r.1, g, step.2, r.2)

/-- The wrapper produced by `pure_sampling(base=1)` (lines 247-249): it simply
delegates every call to the `pure_check`-wrapped function, with the globals
untouched. -/
def pure_sampling_base1_wrapper [DecidableEq β] (func : PyFunG α β)
    (name : String) (g : GState) (a : α) (s : CheckSt α β) :
    Except PyErr β × CheckSt α β :=
  pure_check_wrapper (func g) name g a s

/-- The `checking()` context manager (lines 101-114): increment `__pure_check`,
run the body, decrement in a `finally`; the `assert(__pure_check >= 0)` sits
after the `try/finally` and is reached only on normal completion. -/
def checking_run (body : GState → Except PyErr β × GState) (g : GState) :
    Except PyErr β × GState :=
  let g1 : GState := { g with pure_check := g.pure_check + 1 }
  let res := body g1
  let g2 := res.2
  match res.1 with
  | .ok b =>
    let g3 : GState := { g2 with pure_check := g2.pure_check - 1 }
    if 0 ≤ g3.pure_check then (.ok b, g3) else (.error .assertFail, g3)
  | .error e => (.error e, { g2 with pure_check := g2.pure_check - 1 })

/-- The wrapper produced by the `checked()` decorator (lines 117-134):
increment `__pure_check`, run the body, and in a `finally` (on both exit paths)
decrement and `assert(__pure_check >= 0)`. -/
def checked_run (body : GState → Except PyErr β × GState) (g : GState) :
    Except PyErr β × GState :=
  let g1 : GState := { g with pure_check := g.pure_check + 1 }
  let res := body g1
  let g2 := res.2
  match res.1 with
  | .ok b =>
    let g3 : GState := { g2 with pure_check := g2.pure_check - 1 }
    if 0 ≤ g3.pure_check then (.ok b, g3) else (.error .assertFail, g3)
  | .error e =>
    let g3 : GState := { g2 with pure_check := g2.pure_check - 1 }
    if 0 ≤ g3.pure_check then (.error e, g3) else (.error .assertFail, g3)

/-- An LRU cache as produced by `functools.lru_cache`: entries most recent
first, hit/miss statistics, optional capacity. -/
structure LruCache (κ β : Type) where
  entries : List (κ × β)
  hits : Nat
  misses : Nat
  maxsize : Option Nat
deriving DecidableEq

/-- A fresh empty cache. -/
def lruInit (κ β : Type) (maxsize : Option Nat) : LruCache κ β :=
  ⟨[], 0, 0, maxsize⟩

/-- `cache_info().currsize`. -/
def LruCache.currsize (c : LruCache κ β) : Nat := c.entries.length

/-- A call of the `lru_cache`-wrapped function: on a hit the entry moves to the
front and `hits` increments; on a miss the underlying function is invoked, the
result stored (evicting beyond capacity) and `misses` increments. -/
def cacheCall [DecidableEq κ] (f : κ → β) (c : LruCache κ β) (k : κ) :
    β × LruCache κ β :=
  match c.entries.find? (fun e => decide (e.1 = k)) with
  | some e =>
    (e.2,
     { c with
       hits := c.hits + 1
       entries := (k, e.2) :: c.entries.filter (fun e2 => decide (e2.1 ≠ k)) })
  | none =>
    let v := f k
    let es := (k, v) :: c.entries
    let es2 := match c.maxsize with
      | some m => es.take m
      | none => es
    (v, { c with misses := c.misses + 1, entries := es2 })

/-- `cache_clear()` of `functools.lru_cache`: drops all entries and resets the
statistics. -/
def cache_clear (c : LruCache κ β) : LruCache κ β :=
  { c with entries := [], hits := 0, misses := 0 }

/-- The GC callback registered by `gcd_lru_cache.decorator.cb`
(lines 304-307): on the "start" phase of a collection, clear the cache;
otherwise do nothing. -/
def gc_callback (phase : String) (c : LruCache κ β) : LruCache κ β :=
  if phase = "start" then cache_clear c else c

/-- The decoration-time view of a Python callable, as far as the
`inspect`-based checks can see it. -/
structure PyCallable where
  name : String
  is_gen_fun : Bool
  is_fun : Bool
deriving DecidableEq

/-- Decoration-time behaviour of `pure_check.decorator` (lines 163-171):
generator functions and non-functions are rejected with a `ValueError`. -/
def pure_check_decorate (c : PyCallable) : Except PyErr Unit :=
  if c.is_gen_fun then
    .error (.valueError (c.name ++ "() is a generator not a function."))
  else if ¬ c.is_fun then
    .error (.valueError (c.name ++ "() isn't a function."))
  else .ok ()

/-- Decoration-time behaviour of `pure_sampling.decorator` (lines 235-243):
the same generator/non-function rejection. -/
def pure_sampling_decorate (c : PyCallable) : Except PyErr Unit :=
  if c.is_gen_fun then
    .error (.valueError (c.name ++ "() is a generator not a function."))
  else if ¬ c.is_fun then
    .error (.valueError (c.name ++ "() isn't a function."))
  else .ok ()

/-- Decoration-time behaviour of `gcd_lru_cache.decorator` (lines 298-308): it
performs no inspection of the callable at all; it unconditionally builds the
cache (and registers the GC callback). -/
def gcd_lru_cache_decorate (κ β : Type) (maxsize : Option Nat)
    (_c : PyCallable) : Except PyErr (LruCache κ β) :=
  .ok (lruInit κ β maxsize)

/-- Whether a decoration outcome is a configuration error (`ValueError`). -/
def isConfigError (r : Except PyErr γ) : Bool :=
  match r with
  | .error (.valueError _) => true
  | _ => false

/-- The body of a pure recursively-defined Python function, as a well-founded
tree of self-calls: `ret b` returns `b`; `call a k` makes a recursive call on
argument `a` and continues with the pure continuation `k` on its result. All
effects of such a function go through its self-calls, which in the decorated
Python program go through the wrapper. -/
inductive RecTree (α β : Type) where
  | ret : β → RecTree α β
  | call : α → (β → RecTree α β) → RecTree α β

/-- Execute a body tree, routing every self-call through `self` (the wrapper)
and threading the state. -/
def runTree (self : PyFun α β) :
    RecTree α β → CheckSt α β → Except PyErr β × CheckSt α β
  | .ret b, s => (.ok b, s)
  | .call a k, s =>
    let r0 := self a s
    match r0.1 with
    | .ok b => runTree self (k b) r0.2
    | .error e => (.error e, r0.2)

/-- A pure recursively-defined function decorated with `pure_check()`: the
wrapper of fuel `fuel + 1` runs the body with self-calls going through the
wrapper of fuel `fuel` (fuel exhaustion models nontermination). -/
def wrapFix [DecidableEq β] (body : α → RecTree α β) (name : String)
    (g : GState) : Nat → α → CheckSt α β → Except PyErr β × CheckSt α β
  | 0, _, s => (.error .fuelOut, s)
  | fuel + 1, a, s =>
    pure_check_wrapper (fun x t => runTree (wrapFix body name g fuel) (body x) t)
      name g a s

/-- Big-step evaluation of a body tree under the pure denotation of the
recursive function: the mathematical result of a pure recursively-defined
function, independent of any wrapper state. -/
inductive Evals (body : α → RecTree α β) : RecTree α β → β → Prop where
  | ret (b : β) : Evals body (.ret b) b
  | call {a : α} {k : β → RecTree α β} {b c : β} :
      Evals body (body a) b → Evals body (k b) c → Evals body (.call a k) c

/-- A history is faithful to a pure function when every stored `(input, output)`
pair is a true evaluation of the function. -/
def Faithful (body : α → RecTree α β) (fs : FuncState α β) : Prop :=
  ∀ x y, some (x, y) ∈ fs.history → Evals body (body x) y

/-- The induction interface of a wrapper: it preserves the `checking` flag, is
inert while the guard is set, preserves faithfulness and raises no
`NotPureException` from a faithful state, and only returns true evaluations. -/
def SelfSpec (body : α → RecTree α β) (self : PyFun α β) : Prop :=
  ∀ x s,
    ((self x s).2.fs.checking = s.fs.checking) ∧
    (s.fs.checking = true → (self x s).2 = s) ∧
    (Faithful body s.fs →
      Faithful body (self x s).2.fs ∧
      ∀ m, (self x s).1 ≠ .error (.notPure m)) ∧
    (∀ b, (self x s).1 = .ok b → Evals body (body x) b)

/-- The example body used in concrete witnesses: the Fibonacci function of the
repository's tests. -/
def fibBody : Nat → RecTree Nat Nat
  | 0 => .ret 1
  | 1 => .ret 1
  | n + 2 => .call (n + 1) (fun u => .call n (fun v => .ret (u + v)))

/-- Whether slot `c` of a history is a counterexample to purity of the
deterministic function `f`: the slot stores `(x, y)` but `f x ≠ y`. -/
def slotBadB [DecidableEq β] (f : α → β) (hist : List (Option (α × β)))
    (c : Nat) : Bool :=
  match hist.getD c none with
  | none => false
  | some (x, y) => decide (f x ≠ y)

/-- With both global counters at zero, the `pure_check` wrapper is exactly the
raw call: it adds no replay and no state change of its own (lines 176-180). -/
theorem wrapper_inactive [DecidableEq β] (func : PyFun α β) (name : String)
    (g : GState) (a : α) (s : CheckSt α β)
    (hpc : g.pure_check = 0) (hsc : g.sampling_check = 0) :
    pure_check_wrapper func name g a s = func a s := by
  unfold pure_check_wrapper
  rcases h : func a s with ⟨r, s1⟩
  cases r with
  | error e => rfl
  | ok res => simp [hpc, hsc]

/-- Claim C9: whenever both global counters (check mode and sampling) are zero
at call time, the `pure_check` wrapper is the identity on behaviour: it is
exactly the raw call (first conjunct), and for a plain function it returns the
function's result with the per-function state — history slots, call counter and
checking flag — entirely unchanged (second conjunct). -/
theorem c9_frame_inactive [DecidableEq β] (func : PyFun α β) (f : α → β)
    (name : String) (g : GState) (a : α) (s : CheckSt α β)
    (hpc : g.pure_check = 0) (hsc : g.sampling_check = 0) :
    pure_check_wrapper func name g a s = func a s ∧
    pure_check_wrapper (liftF f) name g a s = (.ok (f a), s) := by
  refine ⟨wrapper_inactive func name g a s hpc hsc, ?_⟩
  rw [wrapper_inactive (liftF f) name g a s hpc hsc]
  rfl

/-- Witness for C9 at a concrete populated state. -/
theorem c9_frame_inactive_witness :
    pure_check_wrapper (liftF (fun n : Nat => n + 1)) "f" ⟨0, 0⟩ 4
        ⟨⟨5, [some (1, 2), none, none], false⟩, []⟩ =
      (.ok 5, ⟨⟨5, [some (1, 2), none, none], false⟩, []⟩) :=
  (c9_frame_inactive (liftF (fun n : Nat => n + 1)) (fun n : Nat => n + 1)
    "f" ⟨0, 0⟩ 4 ⟨⟨5, [some (1, 2), none, none], false⟩, []⟩ rfl rfl).2

/-- Claim C8: after a garbage-collection sweep-start event the cache is empty
regardless of how populated it was, and the next access with any key — in
particular any previously cached key — is a miss that recomputes through the
underlying function. -/
theorem c8_gc_clear [DecidableEq κ] (f : κ → β) (c : LruCache κ β) (k : κ) :
    (gc_callback "start" c).currsize = 0 ∧
    (cacheCall f (gc_callback "start" c) k).1 = f k ∧
    (cacheCall f (gc_callback "start" c) k).2.misses =
      (gc_callback "start" c).misses + 1 ∧
    (cacheCall f (gc_callback "start" c) k).2.hits =
      (gc_callback "start" c).hits := by
  cases hm : c.maxsize <;>
    simp [gc_callback, cache_clear, cacheCall, LruCache.currsize, hm]

/-- Claim C7, counterexample: `gcd_lru_cache` applied to a generator function
is not rejected; the decoration succeeds and produces the cache-backed
wrapper. -/
theorem c7_gcd_accepts_generator :
    gcd_lru_cache_decorate Nat Nat (some 128) ⟨"gen", true, true⟩ =
      .ok (lruInit Nat Nat (some 128)) := rfl

/-- Claim C7 as amended: the verification decorators `pure_check` and
`pure_sampling` reject generator functions and non-function callables at
decoration time with a configuration error (`ValueError`); `gcd_lru_cache`
performs no such check. -/
theorem c7_decoration_rejects (c : PyCallable)
    (h : c.is_gen_fun = true ∨ c.is_fun = false) :
    isConfigError (pure_check_decorate c) = true ∧
    isConfigError (pure_sampling_decorate c) = true := by
  rcases h with h | h
  · simp [pure_check_decorate, pure_sampling_decorate, isConfigError, h]
  · cases hg : c.is_gen_fun <;>
      simp [pure_check_decorate, pure_sampling_decorate, isConfigError, h, hg]

/-- Witness for C7's amended theorem on a generator callable. -/
theorem c7_decoration_rejects_witness :
    isConfigError (pure_check_decorate ⟨"gen", true, true⟩) = true ∧
    isConfigError (pure_sampling_decorate ⟨"gen", true, true⟩) = true :=
  c7_decoration_rejects ⟨"gen", true, true⟩ (Or.inl rfl)

/-- Claim C2 (code bug evidence): with check mode disabled (both globals zero)
the `pure_sampling(base=1)` wrapper performs no verification at all: even with
a history slot that contradicts the function (`f 2 = 2 ≠ 5`), the call returns
normally, no `NotPureException` is raised and the per-function state is
untouched — contradicting the docstring "If base=1 the function is always
checked." -/
theorem c2_base1_no_verification :
    pure_sampling_base1_wrapper (liftFG (fun n : Nat => n)) "f" ⟨0, 0⟩ 7
        ⟨⟨0, [some (2, 5), none, none], false⟩, []⟩ =
      (.ok 7, ⟨⟨0, [some (2, 5), none, none], false⟩, []⟩) := rfl

/-- Claim C1, counterexample: with `base = 2` the second consecutive call is
not a verification event, while the third one is; the schedule is 1, 3, 7, 15,
…, not the claimed 1, 2, 4, 8, 16, …. -/
theorem c1_powers_of_two_refuted :
    sampTrigger 2 1 = false ∧ sampTrigger 2 2 = true := by decide

/-- Backoff invariant for `base = 2`: after `n ≥ 1` consecutive calls,
`check_count` is `log2 (n+1)` and `call_count` is `n + 1 - 2 ^ log2 (n+1)`. -/
theorem sampStateAfter_two (n : Nat) (hn : 1 ≤ n) :
    sampStateAfter 2 n =
      ⟨((n + 1 - 2 ^ Nat.log 2 (n + 1) : Nat) : Int), Nat.log 2 (n + 1)⟩ := by
  induction n with
  | zero => omega
  | succ n ih =>
    rcases Nat.lt_or_ge n 1 with h1 | h1
    · interval_cases n
      have hlog : Nat.log 2 2 = 1 :=
        Nat.log_eq_of_pow_le_of_lt_pow (by norm_num) (by norm_num)
      rw [show sampStateAfter 2 1 = ⟨0, 1⟩ from by decide, hlog]
      norm_num
    · have hinv := ih h1
      have hk1 : 2 ^ Nat.log 2 (n + 1) ≤ n + 1 := Nat.pow_log_le_self 2 (by omega)
      have hk2 : n + 1 < 2 ^ (Nat.log 2 (n + 1) + 1) :=
        Nat.lt_pow_succ_log_self (by norm_num) _
      set k := Nat.log 2 (n + 1) with hk
      show (sampStep 2 (sampStateAfter 2 n)).2 = _
      rw [hinv]
      simp only [sampStep]
      have hcast : ((2 : Nat) : Int) ^ k = ((2 ^ k : Nat) : Int) := by push_cast; ring
      by_cases hcase : n + 2 = 2 ^ (k + 1)
      · have ht : (n + 1 - 2 ^ k) + 1 = 2 ^ k := by
          have : 2 ^ (k + 1) = 2 ^ k + 2 ^ k := by ring
          omega
        have hcc : (((n + 1 - 2 ^ k : Nat) : Int) + 1) % ((2 : Nat) : Int) ^ k = 0 := by
          rw [hcast, show (((n + 1 - 2 ^ k : Nat) : Int) + 1) = (((n + 1 - 2 ^ k) + 1 : Nat) : Int) from by push_cast; ring, ht]
          exact Int.emod_self
        rw [if_pos (by rw [hcc]; exact Int.zero_emod _)]
        have hlog2 : Nat.log 2 (n + 1 + 1) = k + 1 := by
          rw [show n + 1 + 1 = n + 2 from rfl, hcase]
          exact Nat.log_pow (by norm_num) _
        rw [hlog2]
        have : (n + 1 + 1 - 2 ^ (k + 1) : Nat) = 0 := by omega
        rw [this, hcc]
        norm_num
      · have hlt : n + 2 < 2 ^ (k + 1) := by omega
        have ht1 : 1 ≤ (n + 1 - 2 ^ k) + 1 := by omega
        have ht2 : (n + 1 - 2 ^ k) + 1 < 2 ^ k := by
          have : 2 ^ (k + 1) = 2 ^ k + 2 ^ k := by ring
          omega
        have hcc : (((n + 1 - 2 ^ k : Nat) : Int) + 1) % ((2 : Nat) : Int) ^ k =
            (((n + 1 - 2 ^ k) + 1 : Nat) : Int) := by
          rw [hcast, show (((n + 1 - 2 ^ k : Nat) : Int) + 1) = (((n + 1 - 2 ^ k) + 1 : Nat) : Int) from by push_cast; ring]
          exact Int.emod_eq_of_lt (by positivity) (by exact_mod_cast ht2)
        rw [hcc]
        rw [if_neg (by
          rw [hcast, Int.emod_eq_of_lt (by positivity) (by exact_mod_cast ht2)]
          have hne : (n + 1 - 2 ^ k + 1 : Nat) ≠ 0 := by omega
          exact_mod_cast hne)]
        have hlog2 : Nat.log 2 (n + 1 + 1) = k := by
          exact Nat.log_eq_of_pow_le_of_lt_pow (by omega) (by omega)
        rw [hlog2]
        have : (n + 1 + 1 - 2 ^ k : Nat) = (n + 1 - 2 ^ k) + 1 := by omega
        rw [this]

/-- Claim C1 as amended: from the initial decorator state with `base = 2` and
check mode disabled, the `(n+1)`-st consecutive call is a verification event
exactly when `n + 2` is a power of two, i.e. verification happens on calls
1, 3, 7, 15, 31, … (call numbers `N` with `N + 1` a power of two), which is
still `O(log N)` verification events over `N` calls. -/
theorem c1_backoff_schedule (n : Nat) :
    sampTrigger 2 n = true ↔ ∃ k, n = 2 ^ (k + 1) - 2 := by
  rcases Nat.eq_zero_or_pos n with rfl | hn
  · constructor
    · intro _
      exact ⟨0, by norm_num⟩
    · intro _
      decide
  · unfold sampTrigger
    rw [sampStateAfter_two n hn]
    have hk1 : 2 ^ Nat.log 2 (n + 1) ≤ n + 1 := Nat.pow_log_le_self 2 (by omega)
    have hk2 : n + 1 < 2 ^ (Nat.log 2 (n + 1) + 1) :=
      Nat.lt_pow_succ_log_self (by norm_num) _
    set k := Nat.log 2 (n + 1) with hk
    have hpow : 2 ^ (k + 1) = 2 ^ k + 2 ^ k := by ring
    simp only [sampStep]
    have hcast : ((2 : Nat) : Int) ^ k = ((2 ^ k : Nat) : Int) := by push_cast; ring
    have hrepr : (((n + 1 - 2 ^ k : Nat) : Int) + 1) = (((n + 1 - 2 ^ k) + 1 : Nat) : Int) := by
      push_cast; ring
    by_cases hcase : (n + 1 - 2 ^ k) + 1 = 2 ^ k
    · have hcc : (((n + 1 - 2 ^ k : Nat) : Int) + 1) % ((2 : Nat) : Int) ^ k = 0 := by
        rw [hcast, hrepr, hcase]
        exact Int.emod_self
      rw [if_pos (by rw [hcc]; exact Int.zero_emod _)]
      exact iff_of_true rfl ⟨k, by omega⟩
    · have ht1 : 1 ≤ (n + 1 - 2 ^ k) + 1 := by omega
      have ht2 : (n + 1 - 2 ^ k) + 1 < 2 ^ k := by omega
      have hcc : (((n + 1 - 2 ^ k : Nat) : Int) + 1) % ((2 : Nat) : Int) ^ k =
          (((n + 1 - 2 ^ k) + 1 : Nat) : Int) := by
        rw [hcast, hrepr]
        exact Int.emod_eq_of_lt (by positivity) (by exact_mod_cast ht2)
      rw [if_neg (by
        rw [hcc, hcast, Int.emod_eq_of_lt (by positivity) (by exact_mod_cast ht2)]
        have hne : (n + 1 - 2 ^ k + 1 : Nat) ≠ 0 := by omega
        exact_mod_cast hne)]
      refine iff_of_false (by simp) ?_
      rintro ⟨j, hj⟩
      have hone : (1 : Nat) ≤ 2 ^ (j + 1) := Nat.one_le_two_pow
      have hj2 : n + 2 = 2 ^ (j + 1) := by omega
      have hjk : Nat.log 2 (n + 1) = j := by
        refine Nat.log_eq_of_pow_le_of_lt_pow ?_ ?_
        · have h1 : 2 ^ j + 2 ^ j = 2 ^ (j + 1) := by ring
          have h2 : 1 ≤ 2 ^ j := Nat.one_le_two_pow
          omega
        · omega
      rw [← hk] at hjk
      rw [← hjk] at hj2
      omega

/-- Setting the guard twice keeps only the last value. -/
theorem setChecking_setChecking (s : CheckSt α β) (b c : Bool) :
    setChecking (setChecking s b) c = setChecking s c := rfl

/-- Clearing an already-clear guard is the identity. -/
theorem setChecking_false_of {s : CheckSt α β} (h : s.fs.checking = false) :
    setChecking s false = s := by
  obtain ⟨⟨cc, hist, chk⟩, tape⟩ := s
  have hchk : chk = false := h
  subst hchk
  rfl

/-- The drawn shuffle order is the head of the tape (or the unshuffled list). -/
theorem nextShuffle_fst (s : CheckSt α β) :
    (nextShuffle s).1 = s.tape.headD [0, 1, 2] := by
  cases h : s.tape <;> simp [nextShuffle, h]

/-- Drawing a shuffle order only pops the tape. -/
theorem nextShuffle_snd (s : CheckSt α β) :
    (nextShuffle s).2 = ⟨s.fs, s.tape.tail⟩ := by
  obtain ⟨fs, tape⟩ := s
  cases tape <;> simp [nextShuffle]

/-- The replay loop of a lifted (deterministic, state-free) function: it leaves
the state untouched and raises `NotPureException` exactly when some scanned
slot contradicts the function. -/
theorem slotBadB_of_none [DecidableEq β] {f : α → β}
    {hist : List (Option (α × β))} {c : Nat} (h : hist.getD c none = none) :
    slotBadB f hist c = false := by
  unfold slotBadB
  rw [h]

/-- A slot holding `(x, y)` is bad exactly when `f x ≠ y`. -/
theorem slotBadB_of_some [DecidableEq β] {f : α → β}
    {hist : List (Option (α × β))} {c : Nat} {x : α} {y : β}
    (h : hist.getD c none = some (x, y)) :
    slotBadB f hist c = decide (f x ≠ y) := by
  unfold slotBadB
  rw [h]

/-- The replay loop of a lifted (deterministic, state-free) function: it leaves
the state untouched and raises `NotPureException` exactly when some scanned
slot contradicts the function. -/
theorem replayLoop_lift [DecidableEq β] (f : α → β) (name : String) :
    ∀ (checks : List Nat) (s : CheckSt α β), s.fs.checking = false →
      replayLoop (liftF f) name checks s =
        ((if checks.any (slotBadB f s.fs.history) then
            .error (.notPure (npeMsg name)) else .ok ()), s) := by
  intro checks
  induction checks with
  | nil =>
    intro s h
    simp [replayLoop]
  | cons c rest ih =>
    intro s hchk
    have hset : setChecking (setChecking s true) false = s := by
      rw [setChecking_setChecking]
      exact setChecking_false_of hchk
    rcases hslot : s.fs.history.getD c none with _ | ⟨x, y⟩
    · simp only [replayLoop, hslot]
      rw [ih s hchk, List.any_cons, slotBadB_of_none hslot, Bool.false_or]
    · simp only [replayLoop, hslot, liftF]
      rw [List.any_cons, slotBadB_of_some hslot]
      by_cases hbad : y ≠ f x
      · rw [if_pos hbad, hset]
        have hd : decide (f x ≠ y) = true := decide_eq_true (fun h => hbad h.symm)
        rw [hd, Bool.true_or, if_pos rfl]
      · rw [if_neg hbad, hset, ih s hchk]
        push_neg at hbad
        have hd : decide (f x ≠ y) = false := by
          simp [hbad.symm]
        rw [hd, Bool.false_or]

/-- The `pure_check` wrapper of a lifted function with verification active and
the guard clear: it scans the drawn shuffle order; a contradicted slot raises
`NotPureException` with the state's tape popped, otherwise the first
execution's result is returned and the history updated. -/
theorem wrapper_active_lift [DecidableEq β] (f : α → β) (name : String)
    (g : GState) (a : α) (s : CheckSt α β)
    (hact : ¬(g.pure_check = 0 ∧ g.sampling_check = 0))
    (hchk : s.fs.checking = false) :
    pure_check_wrapper (liftF f) name g a s =
      (if (s.tape.headD [0, 1, 2]).any (slotBadB f s.fs.history) then
        (.error (.notPure (npeMsg name)), ⟨s.fs, s.tape.tail⟩)
      else
        (.ok (f a), ⟨historyUpdate s.fs a (f a), s.tape.tail⟩)) := by
  simp only [pure_check_wrapper, liftF]
  rw [if_neg (by
    rw [hchk]
    simp [hact])]
  rw [nextShuffle_fst, nextShuffle_snd]
  rw [replayLoop_lift f name _ ⟨s.fs, s.tape.tail⟩ hchk]
  by_cases hb : (s.tape.headD [0, 1, 2]).any (slotBadB f s.fs.history) = true
  · rw [if_pos hb, if_pos hb]
  · rw [if_neg hb, if_neg hb]

/-- The head of a tape of permutations of `[0,1,2]` is a permutation of
`[0,1,2]`. -/
theorem headD_perm {tape : List (List Nat)}
    (h : ∀ o ∈ tape, o.Perm [0, 1, 2]) :
    (tape.headD [0, 1, 2]).Perm [0, 1, 2] := by
  cases tape with
  | nil => rfl
  | cons o rest => exact h o (List.mem_cons_self o rest)

/-- With verification active (some global counter non-zero), the guard clear,
and a properly shuffled order, a slot contradicting the function makes the
`pure_check` wrapper raise `NotPureException` carrying the function's name. -/
theorem check_detects [DecidableEq β] (f : α → β) (name : String) (g : GState)
    (a : α) (s : CheckSt α β)
    (hact : ¬(g.pure_check = 0 ∧ g.sampling_check = 0))
    (hchk : s.fs.checking = false)
    (hperm : ∀ o ∈ s.tape, o.Perm [0, 1, 2])
    (hbad : ∃ c, c < 3 ∧ ∃ x y, s.fs.history.getD c none = some (x, y) ∧ f x ≠ y) :
    (pure_check_wrapper (liftF f) name g a s).1 =
      .error (.notPure (npeMsg name)) := by
  rw [wrapper_active_lift f name g a s hact hchk]
  obtain ⟨c, hc3, x, y, hslot, hxy⟩ := hbad
  have hmem : c ∈ s.tape.headD [0, 1, 2] := by
    rw [(headD_perm hperm).mem_iff]
    interval_cases c <;> simp
  have hany : (s.tape.headD [0, 1, 2]).any (slotBadB f s.fs.history) = true := by
    rw [List.any_eq_true]
    refine ⟨c, hmem, ?_⟩
    rw [slotBadB_of_some hslot]
    exact decide_eq_true hxy
  rw [if_pos hany]

/-- With verification active and the guard clear, if every history slot agrees
with the function then the wrapper returns the result of the first (normal)
execution of the current call. -/
theorem check_passes [DecidableEq β] (f : α → β) (name : String) (g : GState)
    (a : α) (s : CheckSt α β)
    (hact : ¬(g.pure_check = 0 ∧ g.sampling_check = 0))
    (hchk : s.fs.checking = false)
    (hgood : ∀ c x y, s.fs.history.getD c none = some (x, y) → f x = y) :
    (pure_check_wrapper (liftF f) name g a s).1 = .ok (f a) := by
  rw [wrapper_active_lift f name g a s hact hchk]
  have hany : (s.tape.headD [0, 1, 2]).any (slotBadB f s.fs.history) = false := by
    rw [List.any_eq_false]
    intro c _
    rcases hslot : s.fs.history.getD c none with _ | ⟨x, y⟩
    · rw [slotBadB_of_none hslot]
      exact Bool.false_ne_true
    · rw [slotBadB_of_some hslot]
      simp [hgood c x y hslot]
  rw [if_neg (by rw [hany]; exact Bool.false_ne_true)]

/-- Claim C3: for a call of a `pure_check`-wrapped function with verification
active and not inside a replay, with a properly drawn shuffle order: if some
non-empty history slot's fresh re-execution differs by value inequality from
the stored result, `NotPureException` carrying the function's name is raised;
if all replayed slots compare equal, the result of the first (normal) execution
of the current call is returned. -/
theorem c3_replay_verdict [DecidableEq β] (f : α → β) (name : String)
    (g : GState) (a : α) (s : CheckSt α β)
    (hact : ¬(g.pure_check = 0 ∧ g.sampling_check = 0))
    (hchk : s.fs.checking = false)
    (hperm : ∀ o ∈ s.tape, o.Perm [0, 1, 2]) :
    ((∃ c, c < 3 ∧ ∃ x y, s.fs.history.getD c none = some (x, y) ∧ f x ≠ y) →
      (pure_check_wrapper (liftF f) name g a s).1 =
        .error (.notPure (npeMsg name))) ∧
    ((∀ c x y, s.fs.history.getD c none = some (x, y) → f x = y) →
      (pure_check_wrapper (liftF f) name g a s).1 = .ok (f a)) :=
  ⟨fun hbad => check_detects f name g a s hact hchk hperm hbad,
   fun hgood => check_passes f name g a s hact hchk hgood⟩

/-- Witness for C3: a contradicted slot (`id 2 = 2 ≠ 5`) raises, a consistent
history returns the fresh result. -/
theorem c3_replay_verdict_witness :
    ((pure_check_wrapper (liftF (fun n : Nat => n)) "f" ⟨1, 0⟩ 7
        ⟨⟨0, [some (2, 5), none, none], false⟩, []⟩).1 =
      .error (.notPure "f() has side-effects.")) ∧
    ((pure_check_wrapper (liftF (fun n : Nat => n)) "f" ⟨1, 0⟩ 7
        ⟨⟨0, [some (3, 3), none, none], false⟩, []⟩).1 = .ok 7) :=
  ⟨(c3_replay_verdict (fun n : Nat => n) "f" ⟨1, 0⟩ 7
      ⟨⟨0, [some (2, 5), none, none], false⟩, []⟩ (by simp) rfl (by simp)).1
    ⟨0, by omega, 2, 5, rfl, by omega⟩,
   (c3_replay_verdict (fun n : Nat => n) "f" ⟨1, 0⟩ 7
      ⟨⟨0, [some (3, 3), none, none], false⟩, []⟩ (by simp) rfl (by simp)).2
    (by
      intro c x y h
      match c with
      | 0 =>
        simp only [List.getD_cons_zero, Option.some.injEq, Prod.mk.injEq] at h
        omega
      | 1 => simp at h
      | 2 => simp at h
      | (n + 3) =>
        simp only [List.getD_cons_succ, List.getD_nil] at h
        exact Option.noConfusion h)⟩

/-- Claim C6: after a verified (non-replay, all-replays-passing) call, slot 2
is overwritten by slot 1 exactly when the call counter is at a 13-call
boundary, slot 1 receives slot 0's previous content, slot 0 receives the
newest `((args, kwargs), result)` pair, the counter advances modulo 13, and
the history still holds exactly 3 slots. -/
theorem c6_history_policy [DecidableEq β] (f : α → β) (name : String)
    (g : GState) (a : α) (s : CheckSt α β) (h0 h1 h2 : Option (α × β))
    (hact : ¬(g.pure_check = 0 ∧ g.sampling_check = 0))
    (hchk : s.fs.checking = false)
    (hhist : s.fs.history = [h0, h1, h2])
    (hgood : ∀ c x y, s.fs.history.getD c none = some (x, y) → f x = y) :
    pure_check_wrapper (liftF f) name g a s =
      (.ok (f a),
       ⟨⟨(s.fs.call_count + 1) % 13,
         [some (a, f a), h0, if s.fs.call_count % 13 = 0 then h1 else h2],
         false⟩,
        s.tape.tail⟩) ∧
    (pure_check_wrapper (liftF f) name g a s).2.fs.history.length = 3 := by
  have hany : (s.tape.headD [0, 1, 2]).any (slotBadB f s.fs.history) = false := by
    rw [List.any_eq_false]
    intro c _
    rcases hslot : s.fs.history.getD c none with _ | ⟨x, y⟩
    · rw [slotBadB_of_none hslot]
      exact Bool.false_ne_true
    · rw [slotBadB_of_some hslot]
      simp [hgood c x y hslot]
  have hmain : pure_check_wrapper (liftF f) name g a s =
      (.ok (f a),
       ⟨⟨(s.fs.call_count + 1) % 13,
         [some (a, f a), h0, if s.fs.call_count % 13 = 0 then h1 else h2],
         false⟩,
        s.tape.tail⟩) := by
    rw [wrapper_active_lift f name g a s hact hchk]
    rw [if_neg (by rw [hany]; exact Bool.false_ne_true)]
    obtain ⟨⟨cc, hist, chk⟩, tape⟩ := s
    have hchk' : chk = false := hchk
    have hhist' : hist = [h0, h1, h2] := hhist
    subst hchk'
    subst hhist'
    by_cases hcc : cc % 13 = 0 <;>
      simp [historyUpdate, hcc]
  exact ⟨hmain, by rw [hmain]; rfl⟩

/-- Witness for C6 at a non-boundary counter value. -/
theorem c6_history_policy_witness :
    pure_check_wrapper (liftF (fun n : Nat => n)) "f" ⟨1, 0⟩ 7
        ⟨⟨5, [some (3, 3), none, none], false⟩, []⟩ =
      (.ok 7, ⟨⟨6, [some (7, 7), some (3, 3), none], false⟩, []⟩) := by
  have h := (c6_history_policy (fun n : Nat => n) "f" ⟨1, 0⟩ 7
      ⟨⟨5, [some (3, 3), none, none], false⟩, []⟩ (some (3, 3)) none none
      (by simp) rfl rfl
      (by
        intro c x y h
        match c with
        | 0 =>
          simp only [List.getD_cons_zero, Option.some.injEq, Prod.mk.injEq] at h
          show x = y
          omega
        | 1 => simp at h
        | 2 => simp at h
        | (n + 3) =>
          simp only [List.getD_cons_succ, List.getD_nil] at h
          exact Option.noConfusion h)).1
  rw [h]
  norm_num

/-- A `checking()` scope around a body that restores the globals itself
restores the globals: the counter is put back on every exit path. -/
theorem checking_run_restores {β : Type} (body : GState → Except PyErr β × GState)
    (hrestore : ∀ g1, (body g1).2 = g1) (g : GState) :
    (checking_run body g).2 = g := by
  unfold checking_run
  rcases hb : body { g with pure_check := g.pure_check + 1 } with ⟨rb, gb⟩
  have h2 : gb = { g with pure_check := g.pure_check + 1 } := by
    have h := hrestore { g with pure_check := g.pure_check + 1 }
    rw [hb] at h
    exact h
  subst h2
  obtain ⟨pc, sc⟩ := g
  cases rb with
  | ok b =>
    simp only [hb]
    split <;> simp [GState.mk.injEq]
  | error e =>
    simp only [hb]
    simp [GState.mk.injEq]

/-- A `checking()` scope around a globals-restoring body, entered with a
non-negative counter, propagates the body's outcome (no assertion fires). -/
theorem checking_run_result {β : Type} (body : GState → Except PyErr β × GState)
    (hrestore : ∀ g1, (body g1).2 = g1) (g : GState) (hg : 0 ≤ g.pure_check) :
    (checking_run body g).1 = (body { g with pure_check := g.pure_check + 1 }).1 := by
  unfold checking_run
  rcases hb : body { g with pure_check := g.pure_check + 1 } with ⟨rb, gb⟩
  have h2 : gb = { g with pure_check := g.pure_check + 1 } := by
    have h := hrestore { g with pure_check := g.pure_check + 1 }
    rw [hb] at h
    exact h
  subst h2
  obtain ⟨pc, sc⟩ := g
  have hg' : (0 : Int) ≤ pc := hg
  cases rb with
  | ok b =>
    simp only [hb]
    rw [if_pos (show (0 : Int) ≤ pc + 1 - 1 by omega)]
  | error e =>
    simp only [hb]

/-- A `checked()`-decorated wrapper around a globals-restoring body restores
the globals on every exit path. -/
theorem checked_run_restores {β : Type} (body : GState → Except PyErr β × GState)
    (hrestore : ∀ g1, (body g1).2 = g1) (g : GState) :
    (checked_run body g).2 = g := by
  unfold checked_run
  rcases hb : body { g with pure_check := g.pure_check + 1 } with ⟨rb, gb⟩
  have h2 : gb = { g with pure_check := g.pure_check + 1 } := by
    have h := hrestore { g with pure_check := g.pure_check + 1 }
    rw [hb] at h
    exact h
  subst h2
  obtain ⟨pc, sc⟩ := g
  cases rb with
  | ok b =>
    simp only [hb]
    split <;> simp [GState.mk.injEq]
  | error e =>
    simp only [hb]
    split <;> simp [GState.mk.injEq]

/-- A `checked()`-decorated wrapper around a globals-restoring body, entered
with a non-negative counter, propagates the body's outcome. -/
theorem checked_run_result {β : Type} (body : GState → Except PyErr β × GState)
    (hrestore : ∀ g1, (body g1).2 = g1) (g : GState) (hg : 0 ≤ g.pure_check) :
    (checked_run body g).1 = (body { g with pure_check := g.pure_check + 1 }).1 := by
  unfold checked_run
  rcases hb : body { g with pure_check := g.pure_check + 1 } with ⟨rb, gb⟩
  have h2 : gb = { g with pure_check := g.pure_check + 1 } := by
    have h := hrestore { g with pure_check := g.pure_check + 1 }
    rw [hb] at h
    exact h
  subst h2
  obtain ⟨pc, sc⟩ := g
  have hg' : (0 : Int) ≤ pc := hg
  cases rb with
  | ok b =>
    simp only [hb]
    rw [if_pos (show (0 : Int) ≤ pc + 1 - 1 by omega)]
  | error e =>
    simp only [hb]
    rw [if_pos (show (0 : Int) ≤ pc + 1 - 1 by omega)]

/-- Claim C4: entering two nested check-mode scopes (both via the `checking()`
context and via the `checked()` decorator) and exiting both leaves the global
counter at its pre-scope value, pure of the body's outcome — an error raised in
the inner scope propagates and still restores the counter — and the counter is
non-negative at the observation point after the scopes exit. -/
theorem c4_scope_restore {β : Type} (r : Except PyErr β) (g : GState)
    (hg : 0 ≤ g.pure_check) :
    (checking_run (fun g1 => checking_run (fun g2 => (r, g2)) g1) g = (r, g) ∧
     0 ≤ (checking_run (fun g1 => checking_run (fun g2 => (r, g2)) g1) g).2.pure_check) ∧
    (checked_run (fun g1 => checked_run (fun g2 => (r, g2)) g1) g = (r, g) ∧
     0 ≤ (checked_run (fun g1 => checked_run (fun g2 => (r, g2)) g1) g).2.pure_check) := by
  have hinner : ∀ g1 : GState, ((fun g2 => (r, g2)) g1).2 = g1 := fun _ => rfl
  have houter1 : ∀ g1 : GState, (checking_run (fun g2 => (r, g2)) g1).2 = g1 :=
    checking_run_restores _ hinner
  have houter2 : ∀ g1 : GState, (checked_run (fun g2 => (r, g2)) g1).2 = g1 :=
    checked_run_restores _ hinner
  have hst1 : (checking_run (fun g1 => checking_run (fun g2 => (r, g2)) g1) g).2 = g :=
    checking_run_restores _ houter1 g
  have hst2 : (checked_run (fun g1 => checked_run (fun g2 => (r, g2)) g1) g).2 = g :=
    checked_run_restores _ houter2 g
  have hres1 : (checking_run (fun g1 => checking_run (fun g2 => (r, g2)) g1) g).1 = r := by
    rw [checking_run_result _ houter1 g hg]
    rw [checking_run_result _ hinner _ (by dsimp only; omega)]
  have hres2 : (checked_run (fun g1 => checked_run (fun g2 => (r, g2)) g1) g).1 = r := by
    rw [checked_run_result _ houter2 g hg]
    rw [checked_run_result _ hinner _ (by dsimp only; omega)]
  refine ⟨⟨?_, ?_⟩, ?_, ?_⟩
  · rw [Prod.ext_iff]; exact ⟨hres1, hst1⟩
  · rw [hst1]; exact hg
  · rw [Prod.ext_iff]; exact ⟨hres2, hst2⟩
  · rw [hst2]; exact hg

/-- Witness for C4 with a propagating error from the inner scope. -/
theorem c4_scope_restore_witness :
    (checking_run (fun g1 => checking_run
        (fun g2 => ((.error (.notPure "e") : Except PyErr Nat), g2)) g1) ⟨0, 0⟩ =
      (.error (.notPure "e"), ⟨0, 0⟩)) ∧
    (checked_run (fun g1 => checked_run
        (fun g2 => ((.error (.notPure "e") : Except PyErr Nat), g2)) g1) ⟨0, 0⟩ =
      (.error (.notPure "e"), ⟨0, 0⟩)) :=
  ⟨(c4_scope_restore (.error (.notPure "e")) ⟨0, 0⟩ (le_refl 0)).1.1,
   (c4_scope_restore (.error (.notPure "e")) ⟨0, 0⟩ (le_refl 0)).2.1⟩

/-- Claim C10: in production (check mode off), on a sampled verification call
of a `pure_sampling(base>1)`-wrapped function, the globals passed to the
in-flight `pure_check`-wrapped call have the sampling counter incremented and
strictly positive; the wrapper's final globals restore the pre-call sampling
counter on every exit path (the result, normal or error, is whatever the
checked call produced while the final counter equals the original); and any
`pure_check`-wrapped function invoked under globals with a positive sampling
counter is verified — a contradicted history slot raises `NotPureException`
exactly as under check mode. -/
theorem c10_sampled_call_inflight [DecidableEq β] (base : Nat)
    (func : PyFunG α β) (name : String) (g : GState) (ss : SampState)
    (s : CheckSt α β) (a : α)
    (hbase : 2 ≤ base) (hpc : g.pure_check = 0) (hsc : 0 ≤ g.sampling_check)
    (htrig : (sampStep base ss).1 = true) :
    (0 < ({ g with sampling_check := g.sampling_check + 1 } : GState).sampling_check) ∧
    (pure_sampling_wrapper base func name g ss s a =
      ((pure_check_wrapper (func { g with sampling_check := g.sampling_check + 1 })
          name { g with sampling_check := g.sampling_check + 1 } a s).1,
       g, (sampStep base ss).2,
       (pure_check_wrapper (func { g with sampling_check := g.sampling_check + 1 })
          name { g with sampling_check := g.sampling_check + 1 } a s).2)) ∧
    (∀ (h : GState) (f : α → β) (x : α) (s2 : CheckSt α β),
      0 < h.sampling_check → s2.fs.checking = false →
      (∀ o ∈ s2.tape, o.Perm [0, 1, 2]) →
      (∃ c, c < 3 ∧ ∃ u v, s2.fs.history.getD c none = some (u, v) ∧ f u ≠ v) →
      (pure_check_wrapper (liftF f) name h x s2).1 =
        .error (.notPure (npeMsg name))) := by
  refine ⟨by dsimp only; omega, ?_, ?_⟩
  · obtain ⟨pc, sc⟩ := g
    have hpc' : pc = 0 := hpc
    subst hpc'
    have hsc' : (0 : Int) ≤ sc := hsc
    unfold pure_sampling_wrapper
    rw [if_neg (by dsimp only; omega), if_pos htrig]
    dsimp only
    have h1 : sc + 1 - 1 = sc := by omega
    rw [h1]
  · intro h f x s2 hpos hchk2 hperm2 hbad2
    exact check_detects f name h x s2 (fun hc => by omega) hchk2 hperm2 hbad2

/-- Witness for C10: a concrete sampled first call with `base = 2` from the
initial scheduler state. -/
theorem c10_sampled_call_inflight_witness :
    pure_sampling_wrapper 2 (liftFG (fun n : Nat => n + 1)) "f" ⟨0, 0⟩ sampInit
        ⟨⟨0, [none, none, none], false⟩, []⟩ 4 =
      ((pure_check_wrapper (liftF (fun n : Nat => n + 1)) "f" ⟨0, 1⟩ 4
          ⟨⟨0, [none, none, none], false⟩, []⟩).1,
       ⟨0, 0⟩, (sampStep 2 sampInit).2,
       (pure_check_wrapper (liftF (fun n : Nat => n + 1)) "f" ⟨0, 1⟩ 4
          ⟨⟨0, [none, none, none], false⟩, []⟩).2) :=
  (c10_sampled_call_inflight 2 (liftFG (fun n : Nat => n + 1)) "f" ⟨0, 0⟩
    sampInit ⟨⟨0, [none, none, none], false⟩, []⟩ 4
    (by norm_num) rfl (le_refl 0) (by decide)).2.1

/-- The pure denotation of a recursively-defined function is deterministic. -/
theorem evals_det {body : α → RecTree α β} {t : RecTree α β} {b₁ : β}
    (h₁ : Evals body t b₁) : ∀ b₂, Evals body t b₂ → b₁ = b₂ := by
  induction h₁ with
  | ret b =>
    intro b₂ h₂
    cases h₂
    rfl
  | call ha hk iha ihk =>
    intro b₂ h₂
    cases h₂ with
    | call ha2 hk2 =>
      have hb := iha _ ha2
      subst hb
      exact ihk _ hk2

/-- A `getD` hit on a list of options is a member of the list. -/
theorem getD_some_mem {γ : Type} {l : List (Option γ)} {n : Nat} {v : γ}
    (h : l.getD n none = some v) : some v ∈ l := by
  induction l generalizing n with
  | nil => simp [List.getD_nil] at h
  | cons a l ih =>
    cases n with
    | zero =>
      rw [List.getD_cons_zero] at h
      rw [← h]
      exact List.mem_cons_self a l
    | succ n =>
      rw [List.getD_cons_succ] at h
      exact List.mem_cons_of_mem a (ih h)

/-- Recording a true evaluation keeps the history faithful: every slot of the
updated history is either the newest pair or came from the old history. -/
theorem faithful_update {body : α → RecTree α β} {fs : FuncState α β}
    {a : α} {res : β} (hf : Faithful body fs)
    (hres : Evals body (body a) res) :
    Faithful body (historyUpdate fs a res) := by
  intro x y hmem
  simp only [historyUpdate] at hmem
  have hh1 : ∀ u v, some (u, v) ∈
      (if fs.call_count % 13 = 0 then
        fs.history.set 2 (fs.history.getD 1 none) else fs.history) →
      Evals body (body u) v := by
    intro u v hm
    split at hm
    · rcases List.mem_or_eq_of_mem_set hm with hm2 | he
      · exact hf u v hm2
      · exact hf u v (getD_some_mem he.symm)
    · exact hf u v hm
  rcases List.mem_or_eq_of_mem_set hmem with hmem2 | heq
  · rcases List.mem_or_eq_of_mem_set hmem2 with hmem3 | heq2
    · exact hh1 x y hmem3
    · exact hh1 x y (getD_some_mem heq2.symm)
  · have hx : x = a ∧ y = res := by
      injection heq with heq'
      exact ⟨congrArg Prod.fst heq', congrArg Prod.snd heq'⟩
    rw [hx.1, hx.2]
    exact hres

/-- Running a body tree through a wrapper satisfying `SelfSpec` preserves the
guard, is inert under a set guard, preserves faithfulness, raises no
`NotPureException` from a faithful state, and returns only true evaluations of
the tree. -/
theorem runTree_spec {body : α → RecTree α β} {self : PyFun α β}
    (hs : SelfSpec body self) (t : RecTree α β) :
    ∀ s : CheckSt α β,
      ((runTree self t s).2.fs.checking = s.fs.checking) ∧
      (s.fs.checking = true → (runTree self t s).2 = s) ∧
      (Faithful body s.fs →
        Faithful body (runTree self t s).2.fs ∧
        ∀ m, (runTree self t s).1 ≠ .error (.notPure m)) ∧
      (∀ b, (runTree self t s).1 = .ok b → Evals body t b) := by
  induction t with
  | ret b =>
    intro s
    refine ⟨rfl, fun _ => rfl, fun hf => ⟨hf, by simp [runTree]⟩, ?_⟩
    intro b2 hb2
    simp only [runTree, Except.ok.injEq] at hb2
    rw [← hb2]
    exact Evals.ret b
  | call a k ih =>
    intro s
    obtain ⟨hc1, hfr1, hfa1, hso1⟩ := hs a s
    rcases hrun : self a s with ⟨r1, s1⟩
    rw [hrun] at hc1 hfr1 hfa1 hso1
    cases r1 with
    | error e =>
      simp only [runTree, hrun]
      refine ⟨hc1, ?_, fun hf => ⟨(hfa1 hf).1, (hfa1 hf).2⟩, by simp⟩
      intro ht
      have := hfr1 ht
      simpa using this
    | ok b =>
      simp only [runTree, hrun]
      obtain ⟨h2c, h2fr, h2fa, h2so⟩ := ih b s1
      refine ⟨by rw [h2c]; exact hc1, ?_, ?_, ?_⟩
      · intro ht
        have hs1 : s1 = s := hfr1 ht
        rw [hs1] at h2fr ⊢
        exact h2fr ht
      · intro hf
        have hf1 : Faithful body s1.fs := (hfa1 hf).1
        exact ⟨(h2fa hf1).1, (h2fa hf1).2⟩
      · intro c hc
        exact Evals.call (hso1 b rfl) (h2so c hc)

/-- The replay loop driven by a wrapper satisfying `SelfSpec`: it restores the
state exactly (the guard is set and cleared around every replay), and from a
faithful history it never raises `NotPureException`. -/
theorem replayLoop_spec [DecidableEq β] {body : α → RecTree α β}
    {R : PyFun α β} (name : String) (hR : SelfSpec body R) :
    ∀ (checks : List Nat) (s : CheckSt α β), s.fs.checking = false →
      (replayLoop R name checks s).2 = s ∧
      (Faithful body s.fs →
        ∀ m, (replayLoop R name checks s).1 ≠ .error (.notPure m)) := by
  intro checks
  induction checks with
  | nil =>
    intro s h
    exact ⟨rfl, fun _ m => by simp [replayLoop]⟩
  | cons c rest ih =>
    intro s hchk
    have hset : setChecking (setChecking s true) false = s := by
      rw [setChecking_setChecking]
      exact setChecking_false_of hchk
    rcases hslot : s.fs.history.getD c none with _ | ⟨x, y⟩
    · simp only [replayLoop, hslot]
      exact ih s hchk
    · obtain ⟨hc1, hfr1, hfa1, hso1⟩ := hR x (setChecking s true)
      have hfr := hfr1 rfl
      rcases hrun : R x (setChecking s true) with ⟨r2, s2⟩
      rw [hrun] at hfr hfa1 hso1
      have hs2 : s2 = setChecking s true := hfr
      subst hs2
      cases r2 with
      | error e =>
        simp only [replayLoop, hslot, hrun]
        refine ⟨hset, ?_⟩
        intro hf m hcontra
        have hfg : Faithful body (setChecking s true).fs := hf
        have he : e = PyErr.notPure m := by injection hcontra
        subst he
        exact (hfa1 hfg).2 m rfl
      | ok fresh =>
        simp only [replayLoop, hslot, hrun]
        constructor
        · by_cases hne : y ≠ fresh
          · rw [if_pos hne]
            exact hset
          · rw [if_neg hne, hset]
            exact (ih s hchk).1
        · intro hf m
          have hfg : Faithful body (setChecking s true).fs := hf
          have hev_stored : Evals body (body x) y := hf x y (getD_some_mem hslot)
          have hev_fresh : Evals body (body x) fresh := hso1 fresh rfl
          have hyf : y = fresh := evals_det hev_stored fresh hev_fresh
          rw [if_neg (by rw [hyf]; exact fun hcon => hcon rfl), hset]
          exact (ih s hchk).2 hf m

/-- The `pure_check` wrapper preserves `SelfSpec`: wrapping a conforming raw
function yields a conforming callable. -/
theorem pure_check_wrapper_spec [DecidableEq β] {body : α → RecTree α β}
    {R : PyFun α β} (name : String) (g : GState) (hR : SelfSpec body R) :
    SelfSpec body (fun x s => pure_check_wrapper R name g x s) := by
  intro x s
  obtain ⟨hc1, hfr1, hfa1, hso1⟩ := hR x s
  rcases hrun : R x s with ⟨r1, s1⟩
  rw [hrun] at hc1 hfr1 hfa1 hso1
  cases r1 with
  | error e =>
    simp only [pure_check_wrapper, hrun]
    refine ⟨hc1, ?_, fun hf => ⟨(hfa1 hf).1, (hfa1 hf).2⟩, by simp⟩
    intro ht
    simpa using hfr1 ht
  | ok res =>
    simp only [pure_check_wrapper, hrun]
    by_cases hguard : (g.pure_check = 0 ∧ g.sampling_check = 0) ∨ s1.fs.checking = true
    · rw [if_pos hguard]
      refine ⟨hc1, ?_, fun hf => ⟨(hfa1 hf).1, by simp⟩, ?_⟩
      · intro ht
        simpa using hfr1 ht
      · intro b hb
        simp only [Except.ok.injEq] at hb
        rw [← hb]
        exact hso1 res rfl
    · rw [if_neg hguard]
      have hs1chk : s1.fs.checking = false := by
        rcases Bool.eq_false_or_eq_true s1.fs.checking with hbb | hbb
        · exact absurd (Or.inr hbb) hguard
        · exact hbb
      have hschk : s.fs.checking = false := by rw [← hc1]; exact hs1chk
      have hnofr : ¬(s.fs.checking = true) := by rw [hschk]; exact Bool.false_ne_true
      have hns2 : (nextShuffle s1).2 = ⟨s1.fs, s1.tape.tail⟩ := nextShuffle_snd s1
      have hns2fs : ((nextShuffle s1).2).fs = s1.fs := by rw [hns2]
      have hns2chk : ((nextShuffle s1).2).fs.checking = false := by
        rw [hns2fs]; exact hs1chk
      obtain ⟨hloopst, hloopnpe⟩ :=
        replayLoop_spec name hR (nextShuffle s1).1 (nextShuffle s1).2 hns2chk
      rcases hloop : replayLoop R name (nextShuffle s1).1 (nextShuffle s1).2
        with ⟨r2, s3⟩
      rw [hloop] at hloopst hloopnpe
      have hs3 : s3 = (nextShuffle s1).2 := hloopst
      subst hs3
      cases r2 with
      | error e2 =>
        simp only [hloop]
        refine ⟨by rw [hns2fs]; exact hc1, fun ht => absurd ht hnofr, ?_, by simp⟩
        intro hf
        have hf1 : Faithful body s1.fs := (hfa1 hf).1
        have hf2 : Faithful body ((nextShuffle s1).2).fs := by
          rw [hns2fs]; exact hf1
        refine ⟨hf2, ?_⟩
        intro m hcon
        have he : e2 = PyErr.notPure m := by injection hcon
        subst he
        exact hloopnpe hf2 m rfl
      | ok u =>
        simp only [hloop]
        have hupd_chk :
            (historyUpdate ((nextShuffle s1).2).fs x res).checking =
              ((nextShuffle s1).2).fs.checking := rfl
        refine ⟨?_, fun ht => absurd ht hnofr, ?_, ?_⟩
        · show (historyUpdate ((nextShuffle s1).2).fs x res).checking =
            s.fs.checking
          rw [hupd_chk, hns2fs]
          exact hc1
        · intro hf
          have hf1 : Faithful body s1.fs := (hfa1 hf).1
          have hf2 : Faithful body ((nextShuffle s1).2).fs := by
            rw [hns2fs]; exact hf1
          refine ⟨faithful_update hf2 (hso1 res rfl), by simp⟩
        · intro b hb
          simp only [Except.ok.injEq] at hb
          rw [← hb]
          exact hso1 res rfl

/-- Every fuel level of the wrapped recursive function satisfies `SelfSpec`. -/
theorem wrapFix_spec [DecidableEq β] (body : α → RecTree α β) (name : String)
    (g : GState) : ∀ fuel, SelfSpec body (wrapFix body name g fuel) := by
  intro fuel
  induction fuel with
  | zero =>
    intro x s
    refine ⟨rfl, fun _ => rfl, fun hf => ⟨hf, fun m => by simp [wrapFix]⟩, ?_⟩
    intro b hb
    simp [wrapFix] at hb
  | succ fuel ih =>
    intro x s
    have hR : SelfSpec body
        (fun y t => runTree (wrapFix body name g fuel) (body y) t) :=
      fun y t => runTree_spec ih (body y) t
    exact pure_check_wrapper_spec name g hR x s

/-- Claim C5: for a pure recursively-defined function decorated with
`pure_check` (any globals, so in particular under active check mode): from a
faithful per-function state no call raises `NotPureException`; a call made
while the `checking` guard is set executes the raw function without
verification and without any state mutation, returning only true evaluations
(so replay never recurses beyond one non-replaying level); and after any call
entered with the guard clear, the guard is clear again — also when an
exception propagates. -/
theorem c5_recursion_safety [DecidableEq β] (body : α → RecTree α β)
    (name : String) (g : GState) (fuel : Nat) (a : α) (s : CheckSt α β) :
    (Faithful body s.fs →
      ∀ m, (wrapFix body name g fuel a s).1 ≠ .error (.notPure m)) ∧
    (s.fs.checking = true →
      (wrapFix body name g fuel a s).2 = s ∧
      ∀ b, (wrapFix body name g fuel a s).1 = .ok b → Evals body (body a) b) ∧
    (s.fs.checking = false →
      (wrapFix body name g fuel a s).2.fs.checking = false) := by
  obtain ⟨hc, hfr, hfa, hso⟩ := wrapFix_spec body name g fuel a s
  exact ⟨fun hf => (hfa hf).2, fun ht => ⟨hfr ht, hso⟩,
    fun hfalse => by rw [hc, hfalse]⟩

/-- Witness for C5 on the Fibonacci body with empty history under check
mode. -/
theorem c5_recursion_safety_witness :
    ((wrapFix fibBody "fib" ⟨1, 0⟩ 5 3 ⟨⟨0, [none, none, none], false⟩, []⟩).1 ≠
      .error (.notPure "fib() has side-effects.")) ∧
    ((wrapFix fibBody "fib" ⟨1, 0⟩ 5 3 ⟨⟨0, [none, none, none], true⟩, []⟩).2 =
      ⟨⟨0, [none, none, none], true⟩, []⟩) ∧
    ((wrapFix fibBody "fib" ⟨1, 0⟩ 5 3
        ⟨⟨0, [none, none, none], false⟩, []⟩).2.fs.checking = false) :=
  ⟨(c5_recursion_safety fibBody "fib" ⟨1, 0⟩ 5 3
      ⟨⟨0, [none, none, none], false⟩, []⟩).1
    (fun x y h => by simp at h) "fib() has side-effects.",
   ((c5_recursion_safety fibBody "fib" ⟨1, 0⟩ 5 3
      ⟨⟨0, [none, none, none], true⟩, []⟩).2.1 rfl).1,
   (c5_recursion_safety fibBody "fib" ⟨1, 0⟩ 5 3
      ⟨⟨0, [none, none, none], false⟩, []⟩).2.2 rfl⟩

end PureFunc
